import Mathlib

/-!
Verification of the nano-agent hook subsystem
(`apps/nano_agent_mcp_server/src/nano_agent/modules/hook_manager.py` and its
callers) against its natural-language design spec.

The Python code is shallowly embedded: subprocess behaviour is abstracted into
a `ProcOutcome` oracle (one outcome per spawned process, indexed by execution
order), and the otherwise pure control flow of `HookExecutor.execute_hook` and
`HookManager.trigger_hook` is translated directly.  The data classes of
`hook_types.py` are not part of the provided sources; they are modelled from
the spec's data-model section (each such definition is marked below).
-/

namespace NanoAgent

/-- Modelled from the spec: `hook_types.py` is absent from the sources.
Lifecycle event tags, spec section 3 ("pre-agent-start, tool-pre-call,
tool-post-call, post-agent-complete, agent-error, mcp-request-received,
mcp-response-ready"). -/
inductive HookEvent where
  | pre_agent_start
  | tool_pre_call
  | tool_post_call
  | post_agent_complete
  | agent_error
  | mcp_request_received
  | mcp_response_ready
  deriving Repr, DecidableEq

/-- The string tag of an event, used as key into the configured hooks mapping
(`self.config.hooks.get(event.value, [])`). -/
def HookEvent.value : HookEvent → String
  | .pre_agent_start => "pre_agent_start"
  | .tool_pre_call => "tool_pre_call"
  | .tool_post_call => "tool_post_call"
  | .post_agent_complete => "post_agent_complete"
  | .agent_error => "agent_error"
  | .mcp_request_received => "mcp_request_received"
  | .mcp_response_ready => "mcp_response_ready"

/-- Modelled from the spec: `hook_types.py` is absent from the sources.
One event occurrence, spec section 3: event tag, ISO timestamp, execution
context, working directory, and the optional payload fields. -/
structure HookEventData where
  event : String
  timestamp : String
  context : String
  working_dir : String
  session_id : Option String := none
  model : Option String := none
  provider : Option String := none
  prompt : Option String := none
  tool_name : Option String := none
  tool_args : Option String := none
  error : Option String := none
  token_usage : Option String := none
  execution_time : Option Nat := none
  mcp_client : Option String := none
  mcp_request_id : Option String := none
  deriving Repr, DecidableEq

/-- Modelled from the spec: `hook_types.py` is absent from the sources.
Matcher variant per spec section 9 ("a tagged variant rather than untyped
dict inspection") supporting the section 4.2 modes: always-match, exact
string equality and substring containment against the designated field. -/
inductive HookMatcher where
  | always
  | equalsStr (s : String)
  | containsStr (s : String)
  deriving Repr, DecidableEq

/-- Modelled from the spec: `hook_types.py` is absent from the sources.
One configured hook rule, spec section 3: name, shell command, enabled flag,
blocking flag, timeout in seconds, optional matcher. -/
structure HookConfig where
  name : String
  command : String
  enabled : Bool := true
  blocking : Bool := false
  timeout : Nat := 30
  matcher : HookMatcher := .always
  deriving Repr, DecidableEq

/-- Substring containment on character lists: does `need` occur contiguously
inside the second list? -/
def subOf (need : List Char) : List Char → Bool
  | [] => need.isEmpty
  | c :: t => need.isPrefixOf (c :: t) || subOf need t

/-- Modelled from the spec: `hook_types.py` is absent from the sources.
Whether a hook applies to an event occurrence (spec section 4.2): a hook with
no matcher always applies; otherwise the matcher is evaluated against the
designated field of the event data (the tool name). -/
def HookConfig.matches (h : HookConfig) (d : HookEventData) : Bool :=
  match h.matcher with
  | .always => true
  | .equalsStr s => (d.tool_name.getD "") == s
  | .containsStr s => subOf s.toList (d.tool_name.getD "").toList

/-- Modelled from the spec: `hook_types.py` is absent from the sources.
Top-level settings, spec section 3: global enabled flag, parallel-execution
flag, default timeout, mapping from event tag to ordered hook list (the
mapping is an association list, mirroring a JSON object). -/
structure HooksConfiguration where
  enabled : Bool := true
  parallel_execution : Bool := true
  timeout_seconds : Nat := 30
  hooks : List (String × List HookConfig) := []
  deriving Repr, DecidableEq

/-- Modelled from the spec: `hook_types.py` is absent from the sources.
Outcome of running one hook, spec section 3.  All construction sites in
`hook_manager.py` pass the fields by keyword; fields not passed keep their
defaults. -/
structure HookExecutionResult where
  hook_name : String
  success : Bool
  exit_code : Int
  stdout : String := ""
  stderr : String := ""
  error : Option String := none
  execution_time : Nat := 0
  blocked : Bool := false
  deriving Repr, DecidableEq

/-- Modelled from the spec: `hook_types.py` is absent from the sources.
Aggregate outcome of one triggered event, spec section 3.  `blocking_reason`
is an optional field: the empty constructions in `trigger_hook`
(`HookResult(event=..., hooks_executed=0, results=[])`) force every field
after `results` to carry a default, which for an optional reason string is
`None`. -/
structure HookResult where
  event : HookEvent
  hooks_executed : Nat
  results : List HookExecutionResult
  blocked : Bool := false
  blocking_reason : Option String := none
  total_time : Nat := 0
  deriving Repr, DecidableEq

/-- Behaviour of one spawned hook process, abstracted from the host OS:
the process either completes with an exit code and captured output, times
out, or the spawn/communication raises an exception (`hook_manager.py`
lines 88-149).  The `time` component is the elapsed wall-clock time the
execution measured. -/
inductive ProcOutcome where
  | completed (exit_code : Int) (stdout stderr : String) (time : Nat)
  | timeout (time : Nat)
  | exn (msg : String) (time : Nat)
  deriving Repr, DecidableEq

/-- Embedding of `HookExecutor.execute_hook` (`hook_manager.py` lines 31-149), with the
subprocess behaviour supplied by a `ProcOutcome`:
disabled hooks short-circuit to a successful no-op; a timeout yields a
failed result with the timeout message and `blocked = hook.blocking`; an
exception yields a failed result carrying the exception text and
`blocked = hook.blocking`; normal completion decodes and strips the output
and sets `success = (exit_code == 0)`,
`blocked = (exit_code != 0 && hook.blocking)`. -/
def execute_hook (hook : HookConfig) (ω : ProcOutcome) : HookExecutionResult :=
  if !hook.enabled then
    { hook_name := hook.name, success := true, exit_code := 0,
      stdout := "Hook disabled", execution_time := 0 }
  else
    match ω with
    | .timeout t =>
      { hook_name := hook.name, success := false, exit_code := -1,
        error := some ("Hook execution timed out after " ++
          toString hook.timeout ++ " seconds"),
        execution_time := t, blocked := hook.blocking }
    | .exn msg t =>
      { hook_name := hook.name, success := false, exit_code := -1,
        error := some msg, execution_time := t, blocked := hook.blocking }
    | .completed ec out err t =>
      { hook_name := hook.name, success := ec == 0, exit_code := ec,
        stdout := out.trim, stderr := err.trim, execution_time := t,
        blocked := ec != 0 && hook.blocking }

/-- The sequential execution loop of `HookManager.trigger_hook`
(`hook_manager.py` lines 352-361 and 362-371): run each hook in configured
order, appending its result, and break right after the first result whose
`blocked` flag is set.  `i` is the position of the next execution in the
oracle's numbering. -/
def runSeq (ω : Nat → ProcOutcome) : Nat → List HookConfig → List HookExecutionResult
  | _, [] => []
  | i, h :: t =>
    let r := execute_hook h (ω i)
    if r.blocked then [r] else r :: runSeq ω (i + 1) t

/-- Execute every hook in order with no early stop (the fan-out used for the
non-blocking batch, `hook_manager.py` lines 341-350). -/
def execAll (ω : Nat → ProcOutcome) : Nat → List HookConfig → List HookExecutionResult
  | _, [] => []
  | i, h :: t => execute_hook h (ω i) :: execAll ω (i + 1) t

/-- Keep results up to and including the first blocked one. -/
def takeUntilBlocked : List HookExecutionResult → List HookExecutionResult
  | [] => []
  | r :: t => if r.blocked then [r] else r :: takeUntilBlocked t

/-- The hooks configured for an event and filtered by the matcher
(`hook_manager.py` lines 316-323). -/
def applicableHooks (cfg : HooksConfiguration) (event : HookEvent)
    (data : HookEventData) : List HookConfig :=
  ((cfg.hooks.lookup event.value).getD []).filter (fun h => h.matches data)

/-- Embedding of `HookManager.trigger_hook` (`hook_manager.py` lines 288-379).
`ctx` is the manager's detected execution context and `now` the current ISO
timestamp; `ω` supplies one process outcome per execution, in execution
order.  Returns the aggregate `HookResult` together with the event-data
record as it stands after the call (the Python code mutates `data` in
place at lines 312-314). -/
def trigger_hook (cfg : HooksConfiguration) (ctx now : String)
    (ω : Nat → ProcOutcome) (event : HookEvent) (data0 : HookEventData)
    (blocking : Bool) : HookResult × HookEventData :=
  if !cfg.enabled then
    ({ event := event, hooks_executed := 0, results := [] }, data0)
  else
    let data := { data0 with context := ctx, timestamp := now }
    let applicable := applicableHooks cfg event data
    if applicable.isEmpty then
      ({ event := event, hooks_executed := 0, results := [] }, data)
    else if cfg.parallel_execution && !blocking then
      let nb := applicable.filter (fun h => !h.blocking)
      let nbResults := execAll ω 0 nb
      let bResults := runSeq ω nb.length (applicable.filter (fun h => h.blocking))
      let results := nbResults ++ bResults
      let nbTime := nbResults.foldl (fun m r => max m r.execution_time) 0
      ({ event := event, hooks_executed := results.length, results := results,
         blocked := bResults.any (fun r => r.blocked),
         total_time := nbTime + (bResults.map (fun r => r.execution_time)).sum },
       data)
    else
      let results := runSeq ω 0 applicable
      ({ event := event, hooks_executed := results.length, results := results,
         blocked := results.any (fun r => r.blocked),
         total_time := (results.map (fun r => r.execution_time)).sum },
       data)

/-- How `_execute_nano_agent_async` surfaces a blocked pre-agent hook to the
user (`nano_agent.py` lines 339-344): the response's error text is
`pre_result.blocking_reason or "Agent execution blocked by hook"` — Python's
`or` falls back on both a missing and an empty reason. -/
def blocked_error_message (res : HookResult) : String :=
  match res.blocking_reason with
  | some s => if s.isEmpty then "Agent execution blocked by hook" else s
  | none => "Agent execution blocked by hook"

/-- A raw configuration source as parsed from one JSON file
(`hook_manager.py` `_merge_configs` operates on plain dictionaries before
`HooksConfiguration.from_dict`).  `Option` marks whether the key is present;
the hooks key maps event-tag strings to raw hook lists, as an
insertion-ordered association list mirroring a JSON object. -/
structure RawConfig where
  version : Option String := none
  enabled : Option Bool := none
  timeout_seconds : Option Nat := none
  parallel_execution : Option Bool := none
  hooks : Option (List (String × List HookConfig)) := none
  deriving Repr, DecidableEq

/-- Python dictionary assignment `d[k] = v` on an insertion-ordered
association list: update the value in place if the key exists (keys are
unique in a dictionary, so at its first and only occurrence), otherwise
append the new pair. -/
def dictSet (d : List (String × List HookConfig)) (k : String)
    (v : List HookConfig) : List (String × List HookConfig) :=
  match d with
  | [] => [(k, v)]
  | (k₁, v₁) :: t => if k₁ == k then (k, v) :: t else (k₁, v₁) :: dictSet t k v

/-- One step of `HookManager._merge_configs` (`hook_manager.py` lines
271-284): override the listed top-level keys when present in the later
source, then merge the hooks mapping key-by-key, the later source's list
replacing the earlier one's for the same event tag. -/
def mergeTwo (merged c : RawConfig) : RawConfig :=
  let m1 : RawConfig :=
    { merged with
      version := if c.version.isSome then c.version else merged.version,
      enabled := if c.enabled.isSome then c.enabled else merged.enabled,
      timeout_seconds :=
        if c.timeout_seconds.isSome then c.timeout_seconds
        else merged.timeout_seconds,
      parallel_execution :=
        if c.parallel_execution.isSome then c.parallel_execution
        else merged.parallel_execution }
  match c.hooks with
  | none => m1
  | some hl =>
    { m1 with hooks := some (hl.foldl (fun d p => dictSet d p.1 p.2) (m1.hooks.getD [])) }

/-- Embedding of `HookManager._merge_configs` (`hook_manager.py` lines 255-286): start
from the first source and fold the later ones over it; an empty source list
yields the empty configuration. -/
def merge_configs : List RawConfig → RawConfig
  | [] => {}
  | c :: rest => rest.foldl mergeTwo c

/-- Modelled from the spec: `data_types.py` (the `ToolPermissions` record)
is absent from the sources.  Spec section 3: allow/deny lists for tool names
and path patterns, plus a read-only flag. -/
structure ToolPermissions where
  allowed_tools : List String := []
  blocked_tools : List String := []
  allowed_paths : List String := []
  blocked_paths : List String := []
  read_only : Bool := false
  deriving Repr, DecidableEq

/-- Modelled from the spec: the tool layer enforcing `ToolPermissions`
(`nano_agent_tools.py`) is absent from the sources.  The mutating tools per
spec section 4.6 ("write/edit"). -/
def mutatingTools : List String := ["write_file", "edit_file"]

/-- Modelled from the spec: the tool layer enforcing `ToolPermissions` is
absent from the sources.  The check of spec section 4.6, in its stated
order; `m pat path` is the path-pattern matcher (its semantics are left
abstract): deny if the tool is blocked; else deny if an allow-list exists
and omits the tool; else deny mutating tools under read-only; else deny if
the path matches a blocked pattern; else deny if an allowed-path list
exists and the path matches none; else allow. -/
def check_tool_permission (m : String → String → Bool) (p : ToolPermissions)
    (tool path : String) : Bool :=
  if p.blocked_tools.contains tool then false
  else if !p.allowed_tools.isEmpty && !p.allowed_tools.contains tool then false
  else if p.read_only && mutatingTools.contains tool then false
  else if p.blocked_paths.any (fun pat => m pat path) then false
  else if !p.allowed_paths.isEmpty && !(p.allowed_paths.any (fun pat => m pat path)) then false
  else true

/-- The event-data record as `trigger_hook` leaves it after stamping the
manager's context and the current timestamp (`hook_manager.py` lines
312-314; the assignment is unconditional). -/
def stamped (data : HookEventData) (ctx now : String) : HookEventData :=
  { data with context := ctx, timestamp := now }

/-- The batch of matched hooks that `trigger_hook` fans out concurrently
before the sequential batch: the non-blocking hooks when parallel execution
is on and the caller did not request blocking semantics, nothing
otherwise. -/
def parallelBatch (cfg : HooksConfiguration) (applicable : List HookConfig)
    (b : Bool) : List HookConfig :=
  if cfg.parallel_execution && !b then applicable.filter (fun h => !h.blocking)
  else []

/-- The batch of matched hooks that `trigger_hook` runs sequentially with
the stop-at-first-block rule: the blocking hooks in parallel mode, every
matched hook otherwise. -/
def seqBatch (cfg : HooksConfiguration) (applicable : List HookConfig)
    (b : Bool) : List HookConfig :=
  if cfg.parallel_execution && !b then applicable.filter (fun h => h.blocking)
  else applicable

/-- The effective hook list a merged raw configuration assigns to an event
tag. -/
def lookupHooks (c : RawConfig) (E : String) : Option (List HookConfig) :=
  (c.hooks.getD []).lookup E

/-- A concrete permission value listing `write_file` on both tool lists and
`/etc` on both path pattern lists. -/
def permBoth : ToolPermissions :=
  { allowed_tools := ["write_file"], blocked_tools := ["write_file"],
    allowed_paths := ["/etc"], blocked_paths := ["/etc"] }

/-- A concrete enabled configuration with a single blocking hook on
`pre_agent_start`. -/
def cfgGuard : HooksConfiguration :=
  { enabled := true, parallel_execution := false,
    hooks := [("pre_agent_start",
      [{ name := "guard", command := "guard.sh", blocking := true }])] }

/-- A concrete event-data record whose `context` and `timestamp` are both
already present before the trigger call. -/
def dataPre : HookEventData :=
  { event := "pre_agent_start", timestamp := "2025-06-01T10:00:00",
    context := "cli", working_dir := "/work" }

/-- A concrete earlier (global) raw configuration source defining hooks for
two event tags. -/
def rawGlobal : RawConfig :=
  { enabled := some true, timeout_seconds := some 30,
    hooks := some
      [("pre_agent_start", [{ name := "g-pre", command := "gpre.sh" }]),
       ("agent_error", [{ name := "g-err", command := "gerr.sh" }]) ] }

/-- A concrete later (project) raw configuration source redefining the hook
list of one of the tags and overriding two scalars. -/
def rawProject : RawConfig :=
  { enabled := some false, parallel_execution := some false,
    hooks := some
      [("pre_agent_start",
        [{ name := "p-pre", command := "ppre.sh", blocking := true }])] }

/-- A concrete enabled sequential configuration with two blocking hooks on
`pre_agent_start`. -/
def cfgTwo : HooksConfiguration :=
  { enabled := true, parallel_execution := false,
    hooks := [("pre_agent_start",
      [{ name := "guard1", command := "g1.sh", blocking := true },
       { name := "guard2", command := "g2.sh", blocking := true }])] }

/-! ### Basic facts about `execute_hook` and the execution loops -/

/-- Every execution result is labelled with the executed hook's name. -/
theorem execute_hook_name (hook : HookConfig) (ω : ProcOutcome) :
    (execute_hook hook ω).hook_name = hook.name := by
  unfold execute_hook
  cases h : hook.enabled <;> cases ω <;> simp

/-- A hook with `blocking = false` can never produce a blocked result. -/
theorem execute_hook_not_blocking (hook : HookConfig) (ω : ProcOutcome)
    (h : hook.blocking = false) : (execute_hook hook ω).blocked = false := by
  unfold execute_hook
  cases he : hook.enabled <;> cases ω <;> simp [h]

/-- The sequential loop is the full fan-out truncated at the first blocked
result. -/
theorem runSeq_eq_takeUntilBlocked (ω : Nat → ProcOutcome) :
    ∀ (i : Nat) (hooks : List HookConfig),
      runSeq ω i hooks = takeUntilBlocked (execAll ω i hooks) := by
  intro i hooks
  induction hooks generalizing i with
  | nil => simp [runSeq, execAll, takeUntilBlocked]
  | cons h t ih =>
    simp only [runSeq, execAll, takeUntilBlocked]
    by_cases hb : (execute_hook h (ω i)).blocked <;> simp [hb, ih]

/-- The function `takeUntilBlocked` keeps a prefix of its input; when nothing in the kept
part is blocked, it keeps everything. -/
theorem takeUntilBlocked_take (l : List HookExecutionResult) :
    ∃ n ≤ l.length, takeUntilBlocked l = l.take n ∧
      ((takeUntilBlocked l).any (fun r => r.blocked) = false → n = l.length) := by
  induction l with
  | nil => exact ⟨0, by simp [takeUntilBlocked]⟩
  | cons r t ih =>
    by_cases hb : r.blocked
    · refine ⟨1, by simp, by simp [takeUntilBlocked, hb], ?_⟩
      intro hfalse
      simp [takeUntilBlocked, hb] at hfalse
    · obtain ⟨n, hn, heq, hall⟩ := ih
      refine ⟨n + 1, by simpa using hn, by simp [takeUntilBlocked, hb, heq], ?_⟩
      intro hfalse
      simp only [takeUntilBlocked, hb] at hfalse
      simp only [if_neg (by simp : ¬(false = true)), List.any_cons,
        Bool.or_eq_false_iff] at hfalse
      simp [hall hfalse.2]

/-- Only the last element kept by `takeUntilBlocked` can be blocked. -/
theorem takeUntilBlocked_dropLast (l : List HookExecutionResult) :
    ∀ r ∈ (takeUntilBlocked l).dropLast, r.blocked = false := by
  induction l with
  | nil => simp [takeUntilBlocked]
  | cons x t ih =>
    by_cases hb : x.blocked
    · simp [takeUntilBlocked, hb]
    · have hcons : takeUntilBlocked (x :: t) = x :: takeUntilBlocked t := by
        simp [takeUntilBlocked, hb]
      rw [hcons]
      cases htt : takeUntilBlocked t with
      | nil => simp
      | cons y ys =>
        intro r hr
        rw [List.dropLast_cons₂] at hr
        rcases List.mem_cons.mp hr with h | h
        · rw [h]; simpa using hb
        · exact ih r (by rw [htt]; exact h)

/-- If some kept result is blocked, the last kept result is blocked. -/
theorem takeUntilBlocked_last_blocked (l : List HookExecutionResult)
    (h : (takeUntilBlocked l).any (fun r => r.blocked) = true) :
    ∃ r, (takeUntilBlocked l).getLast? = some r ∧ r.blocked = true := by
  induction l with
  | nil => simp [takeUntilBlocked] at h
  | cons x t ih =>
    by_cases hb : x.blocked
    · exact ⟨x, by simp [takeUntilBlocked, hb], hb⟩
    · have hcons : takeUntilBlocked (x :: t) = x :: takeUntilBlocked t := by
        simp [takeUntilBlocked, hb]
      rw [hcons] at h ⊢
      have h2 : (takeUntilBlocked t).any (fun r => r.blocked) = true := by
        rw [List.any_cons] at h
        rcases Bool.or_eq_true_iff.mp h with h1 | h1
        · exact absurd h1 hb
        · exact h1
      obtain ⟨r, hr, hrb⟩ := ih h2
      cases htt : takeUntilBlocked t with
      | nil => rw [htt] at h2; simp at h2
      | cons y ys =>
        rw [htt] at hr
        exact ⟨r, by rw [List.getLast?_cons_cons]; exact hr, hrb⟩

/-- The executed names of the full fan-out are the configured names in
order. -/
theorem execAll_names (ω : Nat → ProcOutcome) :
    ∀ (i : Nat) (hooks : List HookConfig),
      (execAll ω i hooks).map (fun r => r.hook_name) =
        hooks.map (fun h => h.name) := by
  intro i hooks
  induction hooks generalizing i with
  | nil => simp [execAll]
  | cons h t ih => simp [execAll, execute_hook_name, ih]

/-- The fan-out commutes with taking a prefix of the hook list. -/
theorem execAll_take (ω : Nat → ProcOutcome) :
    ∀ (i n : Nat) (hooks : List HookConfig),
      (execAll ω i hooks).take n = execAll ω i (hooks.take n) := by
  intro i n hooks
  induction hooks generalizing i n with
  | nil => simp [execAll]
  | cons h t ih =>
    cases n with
    | zero => simp [execAll]
    | succ m => simp [execAll, ih]

/-- The fan-out preserves length. -/
theorem execAll_length (ω : Nat → ProcOutcome) :
    ∀ (i : Nat) (hooks : List HookConfig),
      (execAll ω i hooks).length = hooks.length := by
  intro i hooks
  induction hooks generalizing i with
  | nil => simp [execAll]
  | cons h t ih => simp [execAll, ih]

/-- Every result of a fan-out over hooks whose blocking flag is off is
unblocked. -/
theorem execAll_not_blocked (ω : Nat → ProcOutcome) :
    ∀ (i : Nat) (hooks : List HookConfig),
      (∀ h ∈ hooks, h.blocking = false) →
      ∀ r ∈ execAll ω i hooks, r.blocked = false := by
  intro i hooks
  induction hooks generalizing i with
  | nil => simp [execAll]
  | cons h t ih =>
    intro hall r hr
    simp only [execAll, List.mem_cons] at hr
    rcases hr with hr | hr
    · rw [hr]
      exact execute_hook_not_blocking h (ω i) (hall h (by simp))
    · exact ih (i + 1) (fun x hx => hall x (by simp [hx])) r hr

/-- Every hook of the parallel batch has its blocking flag off. -/
theorem parallelBatch_not_blocking (cfg : HooksConfiguration)
    (applicable : List HookConfig) (b : Bool) :
    ∀ h ∈ parallelBatch cfg applicable b, h.blocking = false := by
  intro h hh
  unfold parallelBatch at hh
  by_cases hpar : cfg.parallel_execution && !b
  · rw [if_pos hpar] at hh
    have := (List.mem_filter.mp hh).2
    simpa using this
  · rw [if_neg hpar] at hh
    simp at hh

/-- Dropping the last element of an appended list whose second part is a
nonempty cons keeps the first part whole. -/
theorem dropLast_append_cons (xs : List HookExecutionResult)
    (y : HookExecutionResult) (ys : List HookExecutionResult) :
    (xs ++ y :: ys).dropLast = xs ++ (y :: ys).dropLast := by
  induction xs with
  | nil => simp
  | cons x t ih =>
    cases ht : t ++ y :: ys with
    | nil => exact absurd ht (by simp)
    | cons a l =>
      have h1 : (x :: t ++ y :: ys) = x :: a :: l := by rw [← ht]; rfl
      rw [h1, List.dropLast_cons₂, ← ht, ih]
      rfl

/-- Membership in the dropped-last of an append lands either in the first
part or in the dropped-last of the second. -/
theorem mem_dropLast_append (xs ys : List HookExecutionResult)
    (r : HookExecutionResult) (h : r ∈ (xs ++ ys).dropLast) :
    r ∈ xs ∨ r ∈ ys.dropLast := by
  cases ys with
  | nil =>
    rw [List.append_nil] at h
    exact Or.inl (List.dropLast_subset xs h)
  | cons y t =>
    rw [dropLast_append_cons] at h
    rcases List.mem_append.mp h with h | h
    · exact Or.inl h
    · exact Or.inr h

/-- The empty aggregate returned when the configuration is disabled
(`hook_manager.py` lines 304-310): no hooks executed, no results, not
blocked, no reason, and the event data left untouched. -/
theorem trigger_hook_disabled_eq (cfg : HooksConfiguration) (ctx now : String)
    (ω : Nat → ProcOutcome) (event : HookEvent) (data0 : HookEventData)
    (b : Bool) (hdis : cfg.enabled = false) :
    trigger_hook cfg ctx now ω event data0 b =
      ({ event := event, hooks_executed := 0, results := [] }, data0) := by
  unfold trigger_hook
  simp [hdis]

/-- The empty aggregate returned when no configured hook matches
(`hook_manager.py` lines 325-330), with the event data already stamped. -/
theorem trigger_hook_no_applicable_eq (cfg : HooksConfiguration)
    (ctx now : String) (ω : Nat → ProcOutcome) (event : HookEvent)
    (data0 : HookEventData) (b : Bool) (hen : cfg.enabled = true)
    (happ : (applicableHooks cfg event (stamped data0 ctx now)).isEmpty = true) :
    trigger_hook cfg ctx now ω event data0 b =
      ({ event := event, hooks_executed := 0, results := [] },
        stamped data0 ctx now) := by
  unfold trigger_hook
  simp only [stamped] at happ ⊢
  simp [hen, happ]

/-- Characterization of a `trigger_hook` call that actually runs hooks: the
results are the parallel fan-out over the non-blocking batch followed by the
sequential batch truncated at the first block, the `blocked` flag is
computed from the sequential batch alone, and the executed count is the
result count. -/
theorem trigger_hook_core (cfg : HooksConfiguration) (ctx now : String)
    (ω : Nat → ProcOutcome) (event : HookEvent) (data0 : HookEventData)
    (b : Bool) (hen : cfg.enabled = true)
    (happ : (applicableHooks cfg event (stamped data0 ctx now)).isEmpty = false) :
    (trigger_hook cfg ctx now ω event data0 b).1.results =
      execAll ω 0 (parallelBatch cfg (applicableHooks cfg event (stamped data0 ctx now)) b) ++
        takeUntilBlocked (execAll ω
          (parallelBatch cfg (applicableHooks cfg event (stamped data0 ctx now)) b).length
          (seqBatch cfg (applicableHooks cfg event (stamped data0 ctx now)) b)) ∧
    (trigger_hook cfg ctx now ω event data0 b).1.blocked =
      (takeUntilBlocked (execAll ω
          (parallelBatch cfg (applicableHooks cfg event (stamped data0 ctx now)) b).length
          (seqBatch cfg (applicableHooks cfg event (stamped data0 ctx now)) b))).any
        (fun r => r.blocked) ∧
    (trigger_hook cfg ctx now ω event data0 b).1.hooks_executed =
      (trigger_hook cfg ctx now ω event data0 b).1.results.length := by
  unfold trigger_hook
  simp only [stamped] at happ ⊢
  by_cases hpar : cfg.parallel_execution && !b
  · simp [hen, happ, hpar, parallelBatch, seqBatch,
      runSeq_eq_takeUntilBlocked, execAll_length]
  · simp [hen, happ, hpar, parallelBatch, seqBatch,
      runSeq_eq_takeUntilBlocked, execAll]

/-- Setting a key makes it map to the assigned value. -/
theorem dictSet_lookup_self (d : List (String × List HookConfig))
    (k : String) (v : List HookConfig) :
    (dictSet d k v).lookup k = some v := by
  induction d with
  | nil => simp [dictSet, List.lookup]
  | cons p t ih =>
    obtain ⟨k₁, v₁⟩ := p
    by_cases hk : (k₁ == k) = true
    · simp [dictSet, hk, List.lookup]
    · have hkk : (k == k₁) = false := by
        rw [Bool.eq_false_iff]
        intro hb
        exact hk (by rw [eq_of_beq hb]; exact beq_self_eq_true k₁)
      simp [dictSet, hk, List.lookup, hkk, ih]

/-- Setting a key leaves other keys' lookups alone. -/
theorem dictSet_lookup_other (d : List (String × List HookConfig))
    (k : String) (v : List HookConfig) (k' : String) (hne : k' ≠ k) :
    (dictSet d k v).lookup k' = d.lookup k' := by
  have hbf : (k' == k) = false := by
    rw [Bool.eq_false_iff]
    intro hb
    exact hne (eq_of_beq hb)
  induction d with
  | nil => simp [dictSet, List.lookup, hbf]
  | cons p t ih =>
    obtain ⟨k₁, v₁⟩ := p
    by_cases hk : (k₁ == k) = true
    · have hk1 : k₁ = k := eq_of_beq hk
      simp [dictSet, hk, List.lookup, hbf, hk1]
    · by_cases hk' : (k' == k₁) = true <;>
        simp [dictSet, hk, List.lookup, hk', ih]

/-- Folding hook-list assignments over keys all different from `E` leaves
`E`'s lookup alone. -/
theorem foldl_dictSet_not_mem (hl : List (String × List HookConfig))
    (E : String) (hE : ∀ p ∈ hl, p.1 ≠ E) :
    ∀ d, (hl.foldl (fun d p => dictSet d p.1 p.2) d).lookup E =
      d.lookup E := by
  induction hl with
  | nil => intro d; rfl
  | cons p t ih =>
    intro d
    rw [List.foldl_cons, ih (fun q hq => hE q (by simp [hq])),
      dictSet_lookup_other d p.1 p.2 E (hE p (by simp)).symm]

/-- Folding hook-list assignments with pairwise-distinct keys makes each
assigned key map to its assigned list. -/
theorem foldl_dictSet_mem (hl : List (String × List HookConfig))
    (E : String) (l2 : List HookConfig) (hmem : (E, l2) ∈ hl)
    (hnd : (hl.map Prod.fst).Nodup) :
    ∀ d, (hl.foldl (fun d p => dictSet d p.1 p.2) d).lookup E = some l2 := by
  induction hl with
  | nil => simp at hmem
  | cons p t ih =>
    intro d
    rw [List.map_cons, List.nodup_cons] at hnd
    rcases List.mem_cons.mp hmem with hp | hp
    · have hnotin : ∀ q ∈ t, q.1 ≠ E := by
        intro q hq hqE
        have hmemE : E ∈ t.map Prod.fst := by
          rw [← hqE]
          exact List.mem_map_of_mem Prod.fst hq
        have hpE : p.1 = E := by rw [← hp]
        exact hnd.1 (hpE ▸ hmemE)
      subst hp
      rw [List.foldl_cons, foldl_dictSet_not_mem t E hnotin]
      exact dictSet_lookup_self d E l2
    · rw [List.foldl_cons]
      exact ih hp hnd.2 _

/-! ### Claim theorems -/

/-- C1: for every hook configuration and event data, when the hook's process
completes without timing out, the result of `execute_hook` has
`success = true` iff the exit code is 0, and `blocked = true` iff the exit
code is nonzero and the hook's blocking flag is set (so a non-blocking hook
that exits nonzero yields `blocked = false`). -/
theorem execute_hook_completed_success_blocked (hook : HookConfig)
    (ec : Int) (out err : String) (t : Nat) (hen : hook.enabled = true) :
    ((execute_hook hook (.completed ec out err t)).success = true ↔ ec = 0) ∧
    ((execute_hook hook (.completed ec out err t)).blocked = true ↔
      (ec ≠ 0 ∧ hook.blocking = true)) := by
  unfold execute_hook
  simp [hen]

/-- Witness for C1: a concrete blocking hook whose process exits 2 yields a
failed, blocked result, and the same outcome on a non-blocking hook yields
`blocked = false`. -/
theorem execute_hook_completed_success_blocked_witness :
    ({ name := "lint", command := "lint.sh", blocking := true} :
        HookConfig).enabled = true ∧
    (((execute_hook { name := "lint", command := "lint.sh", blocking := true }
        (.completed 2 "o" "e" 1)).success = true ↔ (2 : Int) = 0) ∧
     ((execute_hook { name := "lint", command := "lint.sh", blocking := true }
        (.completed 2 "o" "e" 1)).blocked = true ↔
        ((2 : Int) ≠ 0 ∧
          ({ name := "lint", command := "lint.sh", blocking := true } :
            HookConfig).blocking = true))) :=
  ⟨rfl, execute_hook_completed_success_blocked
    { name := "lint", command := "lint.sh", blocking := true } 2 "o" "e" 1 rfl⟩

/-- C3: whenever the active configuration has `enabled = false`,
`trigger_hook` returns a result with zero hooks executed, an empty result
list and `blocked = false`, regardless of the configured hook lists. -/
theorem trigger_hook_disabled (cfg : HooksConfiguration) (ctx now : String)
    (ω : Nat → ProcOutcome) (event : HookEvent) (data : HookEventData)
    (b : Bool) (hdis : cfg.enabled = false) :
    (trigger_hook cfg ctx now ω event data b).1.hooks_executed = 0 ∧
    (trigger_hook cfg ctx now ω event data b).1.results = [] ∧
    (trigger_hook cfg ctx now ω event data b).1.blocked = false := by
  unfold trigger_hook
  simp [hdis]

/-- Witness for C3: a disabled configuration that nonetheless configures a
hook list still yields the empty result. -/
theorem trigger_hook_disabled_witness :
    ({ enabled := false,
       hooks := [("pre_agent_start",
         [{ name := "guard", command := "guard.sh", blocking := true }])] } :
        HooksConfiguration).enabled = false ∧
    ((trigger_hook
        { enabled := false,
          hooks := [("pre_agent_start",
            [{ name := "guard", command := "guard.sh", blocking := true }])] }
        "cli" "2025-01-01T00:00:00" (fun _ => .completed 1 "" "" 0)
        .pre_agent_start
        { event := "pre_agent_start", timestamp := "t0", context := "cli",
          working_dir := "/w" }
        false).1.hooks_executed = 0 ∧
     (trigger_hook
        { enabled := false,
          hooks := [("pre_agent_start",
            [{ name := "guard", command := "guard.sh", blocking := true }])] }
        "cli" "2025-01-01T00:00:00" (fun _ => .completed 1 "" "" 0)
        .pre_agent_start
        { event := "pre_agent_start", timestamp := "t0", context := "cli",
          working_dir := "/w" }
        false).1.results = [] ∧
     (trigger_hook
        { enabled := false,
          hooks := [("pre_agent_start",
            [{ name := "guard", command := "guard.sh", blocking := true }])] }
        "cli" "2025-01-01T00:00:00" (fun _ => .completed 1 "" "" 0)
        .pre_agent_start
        { event := "pre_agent_start", timestamp := "t0", context := "cli",
          working_dir := "/w" }
        false).1.blocked = false) :=
  ⟨rfl, trigger_hook_disabled _ _ _ _ _ _ _ rfl⟩

/-- C4: an enabled hook whose process does not complete within the
configured timeout yields a result with `success = false`, an error text
reporting the timeout, and `blocked` equal to the hook's blocking flag. -/
theorem execute_hook_timeout_result (hook : HookConfig) (t : Nat)
    (hen : hook.enabled = true) :
    (execute_hook hook (.timeout t)).success = false ∧
    (execute_hook hook (.timeout t)).error =
      some ("Hook execution timed out after " ++ toString hook.timeout ++
        " seconds") ∧
    (execute_hook hook (.timeout t)).blocked = hook.blocking := by
  unfold execute_hook
  simp [hen]

/-- Witness for C4: a concrete blocking hook that times out reports the
timeout message and counts as a block. -/
theorem execute_hook_timeout_result_witness :
    ({ name := "scan", command := "scan.sh", blocking := true, timeout := 5 } :
        HookConfig).enabled = true ∧
    ((execute_hook
        { name := "scan", command := "scan.sh", blocking := true, timeout := 5 }
        (.timeout 5)).success = false ∧
     (execute_hook
        { name := "scan", command := "scan.sh", blocking := true, timeout := 5 }
        (.timeout 5)).error =
        some ("Hook execution timed out after " ++ toString
          ({ name := "scan", command := "scan.sh", blocking := true,
             timeout := 5 } : HookConfig).timeout ++ " seconds") ∧
     (execute_hook
        { name := "scan", command := "scan.sh", blocking := true, timeout := 5 }
        (.timeout 5)).blocked =
        ({ name := "scan", command := "scan.sh", blocking := true,
           timeout := 5 } : HookConfig).blocking) :=
  ⟨rfl, execute_hook_timeout_result
    { name := "scan", command := "scan.sh", blocking := true, timeout := 5 }
    5 rfl⟩

/-- C5: `execute_hook` is a total function into `HookExecutionResult` — no
exception escapes to the caller — and an exception raised during process
spawn or communication is converted into a failed result carrying the
exception text in its `error` field. -/
theorem execute_hook_exn_result (hook : HookConfig) (msg : String) (t : Nat)
    (hen : hook.enabled = true) :
    (execute_hook hook (.exn msg t)).success = false ∧
    (execute_hook hook (.exn msg t)).error = some msg ∧
    (execute_hook hook (.exn msg t)).blocked = hook.blocking := by
  unfold execute_hook
  simp [hen]

/-- Witness for C5: a concrete spawn failure becomes a failed result with
the exception text. -/
theorem execute_hook_exn_result_witness :
    ({ name := "fmt", command := "fmt.sh" } : HookConfig).enabled = true ∧
    ((execute_hook { name := "fmt", command := "fmt.sh" }
        (.exn "No such file or directory" 0)).success = false ∧
     (execute_hook { name := "fmt", command := "fmt.sh" }
        (.exn "No such file or directory" 0)).error =
        some "No such file or directory" ∧
     (execute_hook { name := "fmt", command := "fmt.sh" }
        (.exn "No such file or directory" 0)).blocked =
        ({ name := "fmt", command := "fmt.sh" } : HookConfig).blocking) :=
  ⟨rfl, execute_hook_exn_result { name := "fmt", command := "fmt.sh" }
    "No such file or directory" 0 rfl⟩

/-- C7: deny wins — a tool present in both `allowed_tools` and
`blocked_tools` is denied, and a path matching both an `allowed_paths`
pattern and a `blocked_paths` pattern is denied, for every permission value
and every pattern matcher. -/
theorem check_tool_permission_deny_wins (m : String → String → Bool)
    (p : ToolPermissions) (tool path : String) :
    (tool ∈ p.allowed_tools → tool ∈ p.blocked_tools →
      check_tool_permission m p tool path = false) ∧
    ((∃ pat ∈ p.allowed_paths, m pat path = true) →
      (∃ pat ∈ p.blocked_paths, m pat path = true) →
      check_tool_permission m p tool path = false) := by
  constructor
  · intro _ hbt
    unfold check_tool_permission
    simp only [Bool.and_eq_true, Bool.not_eq_true']
    simp
    intro h
    exact absurd hbt h
  · intro _ hbp
    obtain ⟨pat, hmem, hm⟩ := hbp
    unfold check_tool_permission
    have hany : p.blocked_paths.any (fun pat => m pat path) = true :=
      List.any_eq_true.mpr ⟨pat, hmem, hm⟩
    by_cases h1 : p.blocked_tools.contains tool <;>
      by_cases h2 : !p.allowed_tools.isEmpty && !p.allowed_tools.contains tool <;>
      by_cases h3 : p.read_only && mutatingTools.contains tool <;>
      simp [h1, h2, h3, hany]

/-- Witness for C7: with exact-string matching as the pattern matcher, the
conflicting permission value `permBoth` denies `write_file` on `/etc`
through both conflict branches. -/
theorem check_tool_permission_deny_wins_witness :
    ("write_file" ∈ permBoth.allowed_tools) ∧
    ("write_file" ∈ permBoth.blocked_tools) ∧
    check_tool_permission (fun pat s => pat == s) permBoth
      "write_file" "/etc" = false ∧
    (∃ pat ∈ permBoth.allowed_paths,
      (fun pat s => pat == s) pat "/etc" = true) ∧
    (∃ pat ∈ permBoth.blocked_paths,
      (fun pat s => pat == s) pat "/etc" = true) :=
  ⟨by decide, by decide,
    (check_tool_permission_deny_wins (fun pat s => pat == s) permBoth
      "write_file" "/etc").1 (by decide) (by decide),
    ⟨"/etc", by decide, by decide⟩, ⟨"/etc", by decide, by decide⟩⟩

/-- C2: within one `trigger_hook` call, hooks of the sequential (blocking)
batch run in configured order after the parallel batch, every non-final
result is unblocked (so execution stops at the first blocked result and no
further hook runs in that call), the executed hooks form the parallel batch
plus a prefix of the sequential batch — the whole batch when nothing
blocked — and the returned `blocked` flag is set exactly when some
executed hook's result reports `blocked`. -/
theorem trigger_hook_stops_at_first_block (cfg : HooksConfiguration)
    (ctx now : String) (ω : Nat → ProcOutcome) (event : HookEvent)
    (data0 : HookEventData) (b : Bool) (hen : cfg.enabled = true) :
    (∀ r ∈ (trigger_hook cfg ctx now ω event data0 b).1.results.dropLast,
      r.blocked = false) ∧
    ((trigger_hook cfg ctx now ω event data0 b).1.blocked =
      (trigger_hook cfg ctx now ω event data0 b).1.results.any
        (fun r => r.blocked)) ∧
    ∃ n ≤ (seqBatch cfg (applicableHooks cfg event (stamped data0 ctx now)) b).length,
      (trigger_hook cfg ctx now ω event data0 b).1.results.map
          (fun r => r.hook_name) =
        ((parallelBatch cfg (applicableHooks cfg event (stamped data0 ctx now)) b) ++
          (seqBatch cfg (applicableHooks cfg event (stamped data0 ctx now)) b).take n).map
          (fun h => h.name) ∧
      ((trigger_hook cfg ctx now ω event data0 b).1.blocked = false →
        n = (seqBatch cfg (applicableHooks cfg event (stamped data0 ctx now)) b).length) := by
  by_cases happ : (applicableHooks cfg event (stamped data0 ctx now)).isEmpty
  · have hres := trigger_hook_no_applicable_eq cfg ctx now ω event data0 b hen happ
    have hnil : applicableHooks cfg event (stamped data0 ctx now) = [] :=
      List.isEmpty_iff.mp happ
    refine ⟨?_, ?_, 0, ?_, ?_, ?_⟩ <;>
      simp [hres, parallelBatch, seqBatch, hnil]
  · have hcore := trigger_hook_core cfg ctx now ω event data0 b hen
      (Bool.not_eq_true _ ▸ (by simpa using happ))
    obtain ⟨hres, hblk, _⟩ := hcore
    have hAun : ∀ r ∈ execAll ω 0
        (parallelBatch cfg (applicableHooks cfg event (stamped data0 ctx now)) b),
        r.blocked = false :=
      execAll_not_blocked ω 0 _
        (parallelBatch_not_blocking cfg _ b)
    refine ⟨?_, ?_, ?_⟩
    · intro r hr
      rw [hres] at hr
      rcases mem_dropLast_append _ _ r hr with h | h
      · exact hAun r h
      · exact takeUntilBlocked_dropLast _ r h
    · rw [hres, hblk, List.any_append]
      have : (execAll ω 0 (parallelBatch cfg
          (applicableHooks cfg event (stamped data0 ctx now)) b)).any
          (fun r => r.blocked) = false := by
        rw [List.any_eq_false]
        intro r hr
        simp [hAun r hr]
      rw [this, Bool.false_or]
    · obtain ⟨n, hn, heq, hall⟩ := takeUntilBlocked_take
        (execAll ω (parallelBatch cfg
          (applicableHooks cfg event (stamped data0 ctx now)) b).length
          (seqBatch cfg (applicableHooks cfg event (stamped data0 ctx now)) b))
      refine ⟨n, by simpa [execAll_length] using hn, ?_, ?_⟩
      · rw [hres, List.map_append, heq, execAll_take, execAll_names,
          execAll_names, ← List.map_append]
      · intro hnb
        rw [hblk] at hnb
        simpa [execAll_length] using hall hnb

/-- Witness for C2: a sequential configuration with two blocking hooks where
the first exits nonzero — only the first runs and the call reports
blocked. -/
theorem trigger_hook_stops_at_first_block_witness :
    cfgTwo.enabled = true ∧
    ((∀ r ∈ (trigger_hook cfgTwo "cli" "2025-06-01T10:00:05"
        (fun _ => .completed 1 "" "" 0) .pre_agent_start dataPre
        false).1.results.dropLast, r.blocked = false) ∧
     ((trigger_hook cfgTwo "cli" "2025-06-01T10:00:05"
        (fun _ => .completed 1 "" "" 0) .pre_agent_start dataPre
        false).1.blocked =
      (trigger_hook cfgTwo "cli" "2025-06-01T10:00:05"
        (fun _ => .completed 1 "" "" 0) .pre_agent_start dataPre
        false).1.results.any (fun r => r.blocked)) ∧
     ∃ n ≤ (seqBatch cfgTwo (applicableHooks cfgTwo .pre_agent_start
        (stamped dataPre "cli" "2025-06-01T10:00:05")) false).length,
      (trigger_hook cfgTwo "cli" "2025-06-01T10:00:05"
        (fun _ => .completed 1 "" "" 0) .pre_agent_start dataPre
        false).1.results.map (fun r => r.hook_name) =
        ((parallelBatch cfgTwo (applicableHooks cfgTwo .pre_agent_start
            (stamped dataPre "cli" "2025-06-01T10:00:05")) false) ++
          (seqBatch cfgTwo (applicableHooks cfgTwo .pre_agent_start
            (stamped dataPre "cli" "2025-06-01T10:00:05")) false).take n).map
          (fun h => h.name) ∧
      ((trigger_hook cfgTwo "cli" "2025-06-01T10:00:05"
          (fun _ => .completed 1 "" "" 0) .pre_agent_start dataPre
          false).1.blocked = false →
        n = (seqBatch cfgTwo (applicableHooks cfgTwo .pre_agent_start
          (stamped dataPre "cli" "2025-06-01T10:00:05")) false).length)) :=
  ⟨rfl, trigger_hook_stops_at_first_block cfgTwo "cli" "2025-06-01T10:00:05"
    (fun _ => .completed 1 "" "" 0) .pre_agent_start dataPre false rfl⟩

/-- C10: every aggregate returned by `trigger_hook` has `hooks_executed`
equal to the length of its results list, has `blocked = true` exactly when
some result reports `blocked`, and when blocked the blocking result is the
last element (every earlier result is unblocked). -/
theorem trigger_hook_result_invariants (cfg : HooksConfiguration)
    (ctx now : String) (ω : Nat → ProcOutcome) (event : HookEvent)
    (data0 : HookEventData) (b : Bool) :
    (trigger_hook cfg ctx now ω event data0 b).1.hooks_executed =
      (trigger_hook cfg ctx now ω event data0 b).1.results.length ∧
    ((trigger_hook cfg ctx now ω event data0 b).1.blocked = true ↔
      ∃ r ∈ (trigger_hook cfg ctx now ω event data0 b).1.results,
        r.blocked = true) ∧
    ((trigger_hook cfg ctx now ω event data0 b).1.blocked = true →
      ∃ r, (trigger_hook cfg ctx now ω event data0 b).1.results.getLast? =
        some r ∧ r.blocked = true) ∧
    (∀ r ∈ (trigger_hook cfg ctx now ω event data0 b).1.results.dropLast,
      r.blocked = false) := by
  by_cases hen : cfg.enabled
  · by_cases happ : (applicableHooks cfg event (stamped data0 ctx now)).isEmpty
    · have hres := trigger_hook_no_applicable_eq cfg ctx now ω event data0 b hen happ
      refine ⟨?_, ?_, ?_, ?_⟩ <;> simp [hres]
    · have hcore := trigger_hook_core cfg ctx now ω event data0 b hen
        (by simpa using happ)
      obtain ⟨hres, hblk, hcount⟩ := hcore
      have hAun : ∀ r ∈ execAll ω 0
          (parallelBatch cfg (applicableHooks cfg event (stamped data0 ctx now)) b),
          r.blocked = false :=
        execAll_not_blocked ω 0 _ (parallelBatch_not_blocking cfg _ b)
      refine ⟨hcount, ?_, ?_, ?_⟩
      · constructor
        · intro hb
          rw [hblk] at hb
          obtain ⟨r, hr, hrb⟩ := List.any_eq_true.mp hb
          exact ⟨r, by rw [hres]; exact List.mem_append_right _ hr,
            by simpa using hrb⟩
        · rintro ⟨r, hr, hrb⟩
          rw [hres] at hr
          rcases List.mem_append.mp hr with h | h
          · exact absurd hrb (by simp [hAun r h])
          · rw [hblk]
            exact List.any_eq_true.mpr ⟨r, h, by simpa using hrb⟩
      · intro hb
        rw [hblk] at hb
        obtain ⟨r, hr, hrb⟩ := takeUntilBlocked_last_blocked _ hb
        refine ⟨r, ?_, hrb⟩
        rw [hres]
        have hne : takeUntilBlocked (execAll ω
            (parallelBatch cfg (applicableHooks cfg event (stamped data0 ctx now)) b).length
            (seqBatch cfg (applicableHooks cfg event (stamped data0 ctx now)) b)) ≠ [] := by
          intro hnil
          rw [hnil] at hb
          simp at hb
        rw [List.getLast?_append_of_ne_nil _ hne]
        exact hr
      · intro r hr
        rw [hres] at hr
        rcases mem_dropLast_append _ _ r hr with h | h
        · exact hAun r h
        · exact takeUntilBlocked_dropLast _ r h
  · have hres := trigger_hook_disabled_eq cfg ctx now ω event data0 b
      (Bool.not_eq_true _ ▸ hen)
    refine ⟨?_, ?_, ?_, ?_⟩ <;> simp [hres]

/-- Counterexample to C8 as stated: with hooks enabled, `trigger_hook`
overwrites `context` and `timestamp` even though both are already present
in the event data, contradicting "context/timestamp when already present,
is unchanged by the call". -/
theorem trigger_hook_overwrites_present_fields :
    (trigger_hook cfgGuard "mcp" "2025-06-01T10:00:05"
        (fun _ => .completed 0 "" "" 0) .pre_agent_start dataPre
        false).2.timestamp ≠ dataPre.timestamp ∧
    (trigger_hook cfgGuard "mcp" "2025-06-01T10:00:05"
        (fun _ => .completed 0 "" "" 0) .pre_agent_start dataPre
        false).2.context ≠ dataPre.context := by
  constructor <;> decide

/-- C8 as amended: `trigger_hook` never touches any field of the event data
other than `context` and `timestamp`; when hooks are enabled it stamps
those two unconditionally — overwriting values already present — and when
hooks are disabled it returns the record unchanged. -/
theorem trigger_hook_data_frame (cfg : HooksConfiguration) (ctx now : String)
    (ω : Nat → ProcOutcome) (event : HookEvent) (data0 : HookEventData)
    (b : Bool) :
    (trigger_hook cfg ctx now ω event data0 b).2 =
      if cfg.enabled then stamped data0 ctx now else data0 := by
  unfold trigger_hook stamped
  by_cases hen : cfg.enabled
  · simp only [hen, Bool.not_true, Bool.false_eq_true, if_false, if_true]
    by_cases happ : (applicableHooks cfg event
        { data0 with context := ctx, timestamp := now }).isEmpty <;>
      by_cases hpar : cfg.parallel_execution && !b <;>
      simp [happ, hpar]
  · simp [hen]

/-- Counterexample to C9 as stated: a blocked `trigger_hook` result carries
no blocking reason — `blocking_reason` is `none` even though the blocking
hook wrote a reason to its error output — and the caller's surfaced error
is the generic fallback text, not a reason identifying the hook. -/
theorem trigger_hook_blocked_without_reason :
    (trigger_hook cfgGuard "cli" "2025-06-01T10:00:05"
        (fun _ => .completed 1 "" "denied: prompt rejected" 0)
        .pre_agent_start dataPre false).1.blocked = true ∧
    (trigger_hook cfgGuard "cli" "2025-06-01T10:00:05"
        (fun _ => .completed 1 "" "denied: prompt rejected" 0)
        .pre_agent_start dataPre false).1.blocking_reason = none ∧
    blocked_error_message (trigger_hook cfgGuard "cli" "2025-06-01T10:00:05"
        (fun _ => .completed 1 "" "denied: prompt rejected" 0)
        .pre_agent_start dataPre false).1 =
      "Agent execution blocked by hook" := by
  refine ⟨by decide, by decide, by decide⟩

/-- C9 as amended: `trigger_hook` never populates `blocking_reason` (every
construction site leaves it at its `None` default), so the caller's
surfaced error for a blocked step is always the fixed fallback text
"Agent execution blocked by hook"; the identity and captured output of the
blocking hook are available only inside the `results` list. -/
theorem trigger_hook_no_blocking_reason (cfg : HooksConfiguration)
    (ctx now : String) (ω : Nat → ProcOutcome) (event : HookEvent)
    (data0 : HookEventData) (b : Bool) :
    (trigger_hook cfg ctx now ω event data0 b).1.blocking_reason = none ∧
    blocked_error_message (trigger_hook cfg ctx now ω event data0 b).1 =
      "Agent execution blocked by hook" := by
  have h : (trigger_hook cfg ctx now ω event data0 b).1.blocking_reason = none := by
    unfold trigger_hook
    by_cases hen : cfg.enabled
    · simp only [hen, Bool.not_true, Bool.false_eq_true, if_false]
      by_cases happ : (applicableHooks cfg event
          { data0 with context := ctx, timestamp := now }).isEmpty <;>
        by_cases hpar : cfg.parallel_execution && !b <;>
        simp [happ, hpar]
    · simp [hen]
  refine ⟨h, ?_⟩
  unfold blocked_error_message
  rw [h]

/-- C6: merging an ordered pair of configuration sources, a later source's
hook list for an event tag replaces the earlier source's list for that tag
(its keys being the distinct keys of a JSON object); tags the later source
does not mention keep the earlier source's list; and the scalar top-level
settings present in the later source override the earlier values. -/
theorem merge_configs_later_overrides (c1 c2 : RawConfig) :
    (∀ (hl2 : List (String × List HookConfig)) (E : String)
        (l2 : List HookConfig),
      c2.hooks = some hl2 → (hl2.map Prod.fst).Nodup → (E, l2) ∈ hl2 →
      lookupHooks (merge_configs [c1, c2]) E = some l2) ∧
    (∀ E : String,
      (c2.hooks = none ∨
        ∃ hl2, c2.hooks = some hl2 ∧ ∀ p ∈ hl2, p.1 ≠ E) →
      lookupHooks (merge_configs [c1, c2]) E = lookupHooks c1 E) ∧
    (∀ v, c2.enabled = some v → (merge_configs [c1, c2]).enabled = some v) ∧
    (∀ v, c2.timeout_seconds = some v →
      (merge_configs [c1, c2]).timeout_seconds = some v) ∧
    (∀ v, c2.parallel_execution = some v →
      (merge_configs [c1, c2]).parallel_execution = some v) := by
  have hm : merge_configs [c1, c2] = mergeTwo c1 c2 := rfl
  refine ⟨?_, ?_, ?_, ?_, ?_⟩
  · intro hl2 E l2 hh hnd hmem
    rw [hm]
    unfold mergeTwo lookupHooks
    rw [hh]
    simpa using foldl_dictSet_mem hl2 E l2 hmem hnd _
  · intro E hnot
    rw [hm]
    unfold mergeTwo lookupHooks
    rcases hnot with hh | ⟨hl2, hh, hne⟩
    · rw [hh]
    · rw [hh]
      simpa using foldl_dictSet_not_mem hl2 E hne _
  · intro v hv
    rw [hm]
    unfold mergeTwo
    cases hhooks : c2.hooks <;> simp [hv]
  · intro v hv
    rw [hm]
    unfold mergeTwo
    cases hhooks : c2.hooks <;> simp [hv]
  · intro v hv
    rw [hm]
    unfold mergeTwo
    cases hhooks : c2.hooks <;> simp [hv]

/-- Witness for C6: merging the concrete global and project sources: the
project list replaces the global list for `pre_agent_start`, the
`agent_error` list survives from the global source, and the project's
scalars win. -/
theorem merge_configs_later_overrides_witness :
    rawProject.hooks = some
      [("pre_agent_start",
        [{ name := "p-pre", command := "ppre.sh", blocking := true }])] ∧
    lookupHooks (merge_configs [rawGlobal, rawProject]) "pre_agent_start" =
      some [{ name := "p-pre", command := "ppre.sh", blocking := true }] ∧
    lookupHooks (merge_configs [rawGlobal, rawProject]) "agent_error" =
      lookupHooks rawGlobal "agent_error" ∧
    (merge_configs [rawGlobal, rawProject]).enabled = some false ∧
    (merge_configs [rawGlobal, rawProject]).parallel_execution = some false :=
  ⟨rfl,
    (merge_configs_later_overrides rawGlobal rawProject).1 _ "pre_agent_start"
      _ rfl (by decide) (by simp),
    (merge_configs_later_overrides rawGlobal rawProject).2.1 "agent_error"
      (Or.inr ⟨_, rfl, by decide⟩),
    (merge_configs_later_overrides rawGlobal rawProject).2.2.1 false rfl,
    (merge_configs_later_overrides rawGlobal rawProject).2.2.2.2 false rfl⟩

end NanoAgent
